import Mathlib

/-!
Shallow embedding of the HFLabsTestTask program (src/main.go).

The program scrapes HTML tables from a Confluence page and writes them into a
Google Docs document.  External effects (HTTP, the Docs API, the local file
system, the html2text converter) are modelled as oracle parameters: each Lean
function receives the results of the calls it would make, and returns the
trace of API calls it issues together with its result value.  Machine
integers (Go int / int64) are modelled as Nat / Int; the offsets involved are
document character offsets and row/column counts, far from any overflow.
-/

/-- Go struct `row` (src/main.go): one scraped table row, ordered cell texts. -/
structure row where
  entries : List String
  deriving DecidableEq, Repr

/-- Go struct `table` (src/main.go): an ordered list of scraped rows. -/
structure table where
  contents : List row
  deriving DecidableEq, Repr

namespace docs

/-- Google Docs API `TableCell`: only the fields read by the program
(StartIndex).  A `nil` cell pointer in Go is `Option.none` at the use site. -/
structure TableCell where
  startIndex : Int
  deriving DecidableEq, Repr

/-- Google Docs API `TableRow`: the cells of one row; entries are `Option`
because Go iterates over possibly-nil `*TableCell` pointers. -/
structure TableRow where
  tableCells : List (Option TableCell)
  deriving DecidableEq, Repr

/-- Google Docs API `Table`: the rows; entries are `Option` because Go
iterates over possibly-nil `*TableRow` pointers. -/
structure Table where
  tableRows : List (Option TableRow)
  deriving DecidableEq, Repr

/-- Google Docs API `StructuralElement`: only the fields the program reads
(StartIndex, EndIndex, and whether the element is a table). -/
structure StructuralElement where
  startIndex : Int
  endIndex : Int
  table : Option Table
  deriving DecidableEq, Repr

/-- Google Docs API `Body`: the ordered content segments of the document. -/
structure Body where
  content : List StructuralElement
  deriving DecidableEq, Repr

/-- Google Docs API `Document`: only the fields the program reads. -/
structure Document where
  documentId : String
  body : Body
  deriving DecidableEq, Repr

/-- Google Docs API `Range` (character offsets). -/
structure Range where
  startIndex : Int
  endIndex : Int
  deriving DecidableEq, Repr

/-- Google Docs API `Location` (a character offset). -/
structure Location where
  index : Int
  deriving DecidableEq, Repr

/-- Google Docs API `DeleteContentRangeRequest`. -/
structure DeleteContentRangeRequest where
  range : Range
  deriving DecidableEq, Repr

/-- Google Docs API `InsertTableRequest`.  The program always passes
`EndOfSegmentLocation{}` (insert at the end of the body), so that constant
field is not modelled. -/
structure InsertTableRequest where
  rows : Int
  columns : Int
  deriving DecidableEq, Repr

/-- Google Docs API `InsertTextRequest`. -/
structure InsertTextRequest where
  text : String
  location : Location
  deriving DecidableEq, Repr

/-- Google Docs API `Request`: in Go a struct of optional pointers of which
the program always sets exactly one, so it is modelled as a sum. -/
inductive Request where
  | deleteContentRange : DeleteContentRangeRequest → Request
  | insertTable : InsertTableRequest → Request
  | insertText : InsertTextRequest → Request
  deriving DecidableEq, Repr

end docs

/-- One call issued against the Docs service: `Documents.Get` or
`Documents.BatchUpdate` (the two used by clear and insert). -/
inductive ApiCall where
  | get : String → ApiCall
  | batchUpdate : String → List docs.Request → ApiCall
  deriving DecidableEq, Repr

/-- Go `stripHtmlTags` (src/main.go lines 32-39).  The external
`html2text.FromString` conversion is an oracle parameter `convRes`: on
success its text is returned, on error the original string is returned. -/
def stripHtmlTags (convRes : Except String String) (s : String) : String :=
  match convRes with
  | .ok text => text
  | .error _ => s

/-- A parsed HTML node, the result of goquery parsing: an element with a tag
name, its class list, and children, or a text node. -/
inductive HtmlNode where
  | text : String → HtmlNode
  | element : String → List String → List HtmlNode → HtmlNode
  deriving Repr

mutual

/-- All descendants of a node in document (pre-)order, excluding the node
itself — the search space of a goquery `Find` on that node. -/
def descendants : HtmlNode → List HtmlNode
  | .text _ => []
  | .element _ _ cs => descendantsList cs

/-- Pre-order listing of a forest: each root followed by its descendants. -/
def descendantsList : List HtmlNode → List HtmlNode
  | [] => []
  | c :: cs => (c :: descendants c) ++ descendantsList cs

end

/-- Does the node carry the given CSS class (goquery class selector)? -/
def hasClass (c : String) : HtmlNode → Bool
  | .text _ => false
  | .element _ classes _ => classes.contains c

/-- Is the node an element with the given tag (goquery tag selector)? -/
def isTag (t : String) : HtmlNode → Bool
  | .text _ => false
  | .element tag _ _ => tag == t

mutual

/-- Serialization of a node back to HTML text (goquery `.Html` support). -/
def renderNode : HtmlNode → String
  | .text s => s
  | .element tag _ cs => "<" ++ tag ++ ">" ++ renderList cs ++ "</" ++ tag ++ ">"

/-- Serialization of a forest of nodes. -/
def renderList : List HtmlNode → String
  | [] => ""
  | c :: cs => renderNode c ++ renderList cs

end

/-- Inner HTML of a node (goquery `.Html()`): its children serialized. -/
def innerHtml : HtmlNode → String
  | .text _ => ""
  | .element _ _ cs => renderList cs

/-- The HTTP response of the page fetch: status code, status text, body. -/
structure HttpResponse where
  statusCode : Nat
  status : String
  body : String
  deriving DecidableEq, Repr

/-- Go `getTables` (src/main.go lines 41-77).  `httpRes` is the result of
`http.Get`, `parseHtml` the goquery HTML parser, `conv` the html2text
conversion keyed by the cell's inner HTML.  Selects every element with class
`confluenceTable`; within each, every `tr` descendant; within each of those,
every `td` or `th` descendant, whose inner HTML is stripped to text. -/
def getTables (httpRes : Except String HttpResponse)
    (parseHtml : String → Except String HtmlNode)
    (conv : String → Except String String) : Except String (List table) :=
  match httpRes with
  | .error e => .error e
  | .ok response =>
    if response.statusCode ≠ 200 then
      .error ("Non-okay status code: " ++ toString response.statusCode ++ " " ++ response.status)
    else
      match parseHtml response.body with
      | .error e => .error e
      | .ok document =>
        .ok (((descendants document).filter (hasClass ("confluenceTable"))).map
          (fun tableSelection =>
            ⟨((descendants tableSelection).filter (isTag ("tr"))).map
              (fun rowSelection =>
                ⟨((descendants rowSelection).filter
                    (fun n => isTag ("td") n || isTag ("th") n)).map
                  (fun cellSelection =>
                    stripHtmlTags (conv (innerHtml cellSelection)) (innerHtml cellSelection))⟩)⟩))

set_option linter.unusedVariables false in
/-- Go `getDocument` (src/main.go lines 151-164).  `readRes` is the result of
reading the document-id file, `getRes` the `Documents.Get` call keyed by the
id read, `createRes` the `Documents.Create` call, `writeRes` the result of
persisting the new id with `os.WriteFile` — which the Go code discards, so
the parameter does not influence the result. -/
def getDocument (readRes : Except String String)
    (getRes : String → Except String docs.Document)
    (createRes : Except String docs.Document)
    (writeRes : Except String Unit) : Except String docs.Document :=
  match readRes with
  | .ok documentIdBytes => getRes documentIdBytes
  | .error _ =>
    match createRes with
    | .error e => .error e
    | .ok doc => .ok doc

/-- Go `clearDocument` (src/main.go lines 166-200).  `g` is the result of the
`Documents.Get` call and `b` the result of the batch update.  Returns the
trace of API calls issued and the function's error result. -/
def clearDocument (docId : String) (g : Except String docs.Document)
    (b : Except String Unit) : List ApiCall × Except String Unit :=
  match g with
  | .error e => ([ApiCall.get docId], .error e)
  | .ok doc =>
    match doc.body.content with
    | [] => ([ApiCall.get docId], .ok ())
    | el0 :: rest =>
      let startIndex := el0.startIndex
      let endIndex := (rest.getLast?.getD el0).endIndex
      ([ApiCall.get docId,
        ApiCall.batchUpdate docId
          [docs.Request.deleteContentRange ⟨⟨startIndex + 1, endIndex - 1⟩⟩]],
       b)

/-- The validation loop of Go `insertTableToDocument` (src/main.go lines
209-213): walk the rows with index `i`, returning the error message for the
first row whose cell count differs from `colCnt` (the first row's count). -/
def checkRows (rows : List row) (colCnt : Nat) (i : Nat) : Option String :=
  match rows with
  | [] => none
  | r :: rest =>
    if r.entries.length ≠ colCnt then
      some ("Invalid table: " ++ toString colCnt ++ " cells in first row, "
        ++ toString r.entries.length ++ " cell in row #" ++ toString (i + 1))
    else checkRows rest colCnt (i + 1)

/-- The table-search loop of Go `insertTableToDocument` (src/main.go lines
238-243): `tableIdx` starts at -1 and is overwritten with `i` for every
element whose `Table` pointer is non-nil, so it ends at the last such index. -/
def lastTableIdxAux (content : List docs.StructuralElement) (i : Nat) (acc : Int) : Int :=
  match content with
  | [] => acc
  | el :: rest => lastTableIdxAux rest (i + 1) (if el.table.isSome then (i : Int) else acc)

/-- The complete table-search loop: index of the last table element, -1 if none. -/
def lastTableIdx (content : List docs.StructuralElement) : Int :=
  lastTableIdxAux content 0 (-1)

/-- The inner (cell) loop of Go `insertTableToDocument` (src/main.go lines
254-266): walk the fetched row's cells with index `cellIdx`, skipping nil
cells; for each cell, read `tbl.contents[rowIdx].entries[cellIdx]` (a Go
index-out-of-range panic is modelled as `none`), emit an InsertText request
at `cell.StartIndex + 1 + totalInserted`, and add the text's rune count
(`String.length` counts code points, as `utf8.RuneCountInString` does) to
the running total.  Returns the requests and the final total. -/
def processCells (contents : List row) (rowIdx : Nat)
    (cells : List (Option docs.TableCell)) (cellIdx : Nat) (totalInserted : Int) :
    Option (List docs.Request × Int) :=
  match cells with
  | [] => some ([], totalInserted)
  | none :: rest => processCells contents rowIdx rest (cellIdx + 1) totalInserted
  | some cell :: rest =>
    match (contents.get? rowIdx).bind (fun r => r.entries.get? cellIdx) with
    | none => none
    | some text =>
      match processCells contents rowIdx rest (cellIdx + 1)
          (totalInserted + (text.length : Int)) with
      | none => none
      | some (reqs, tot) =>
        some (docs.Request.insertText ⟨text, ⟨cell.startIndex + 1 + totalInserted⟩⟩ :: reqs, tot)

/-- The outer (row) loop of Go `insertTableToDocument` (src/main.go lines
252-268): walk the fetched table's rows with index `rowIdx`, skipping nil
rows, threading `totalInserted` through the cell loop and concatenating the
requests.  A Go panic inside the cell loop is propagated as `none`. -/
def processRows (contents : List row) (trows : List (Option docs.TableRow))
    (rowIdx : Nat) (totalInserted : Int) : Option (List docs.Request) :=
  match trows with
  | [] => some []
  | none :: rest => processRows contents rest (rowIdx + 1) totalInserted
  | some r :: rest =>
    match processCells contents rowIdx r.tableCells 0 totalInserted with
    | none => none
    | some (reqs, tot) =>
      match processRows contents rest (rowIdx + 1) tot with
      | none => none
      | some reqs2 => some (reqs ++ reqs2)

/-- Go `insertTableToDocument` (src/main.go lines 202-280).  `b1` is the
result of the first batch update (the InsertTable request), `g` the result of
the re-fetch `Documents.Get`, `b2` the result of the second batch update (the
InsertText requests).  Returns the trace of API calls issued and the
function's result; the outer `Option` is `none` exactly when the Go code
would panic on an out-of-range index or nil dereference. -/
def insertTableToDocument (docId : String) (tbl : table) (b1 : Except String Unit)
    (g : Except String docs.Document) (b2 : Except String Unit) :
    List ApiCall × Option (Except String Unit) :=
  match tbl.contents with
  | [] => ([], some (Except.error ("Empty table")))
  | r0 :: _ =>
    let rowCnt := tbl.contents.length
    let colCnt := r0.entries.length
    match checkRows tbl.contents colCnt 0 with
    | some msg => ([], some (Except.error msg))
    | none =>
      let call1 := ApiCall.batchUpdate docId
        [docs.Request.insertTable ⟨(rowCnt : Int), (colCnt : Int)⟩]
      match b1 with
      | .error e => ([call1], some (.error e))
      | .ok _ =>
        let call2 := ApiCall.get docId
        match g with
        | .error e => ([call1, call2], some (.error e))
        | .ok doc =>
          let tableIdx := lastTableIdx doc.body.content
          if tableIdx = -1 then
            ([call1, call2], some (.error ("Failed to find last table in doc.Body.Content")))
          else
            match (doc.body.content.get? tableIdx.toNat).bind (fun el => el.table) with
            | none => ([call1, call2], none)
            | some dt =>
              match processRows tbl.contents dt.tableRows 0 0 with
              | none => ([call1, call2], none)
              | some reqs =>
                let call3 := ApiCall.batchUpdate docId reqs
                match b2 with
                | .error e => ([call1, call2, call3], some (.error e))
                | .ok _ => ([call1, call2, call3], some (.ok ()))

/-- The error component of a step result, as the driver logs it. -/
def errOf : Except String Unit → Option String
  | .ok _ => none
  | .error e => some e

/-- The insertion loop of Go `main` (src/main.go lines 305-310): one
insertion attempt per scraped table, in order; `insertRes n` is the outcome
of the n-th `insertTableToDocument` call.  Every table is attempted no
matter how many previous attempts failed. -/
def runInserts (tbls : List table) (insertRes : Nat → Except String Unit) (n : Nat) :
    List (Option String) :=
  match tbls with
  | [] => []
  | _ :: rest => errOf (insertRes n) :: runInserts rest insertRes (n + 1)

/-- The terminal behaviour of Go `main`: a `log.Fatalf` halt at one of the
three fatal steps, or the Done state with the logged (non-fatal) clear error
and the logged per-table insertion errors. -/
inductive MainOutcome where
  | fatalTables : String → MainOutcome
  | fatalService : String → MainOutcome
  | fatalDocument : String → MainOutcome
  | done : Option String → List (Option String) → MainOutcome
  deriving DecidableEq, Repr

/-- Go `main` (src/main.go lines 282-311), at the driver level: the outcomes
of the pipeline steps are oracle parameters (`tablesRes` for `getTables`,
`serviceRes` for `getService`, `docRes` for `getDocument`, `clearRes` for
`clearDocument`, `insertRes n` for the n-th `insertTableToDocument` call).
The first three failures are `log.Fatalf` halts; clear and insert failures
are printed and execution continues.  (Named `mainDriver` because Lean
reserves `main` for an IO entry point.) -/
def mainDriver (tablesRes : Except String (List table)) (serviceRes : Except String Unit)
    (docRes : Except String docs.Document) (clearRes : Except String Unit)
    (insertRes : Nat → Except String Unit) : MainOutcome :=
  match tablesRes with
  | .error e => .fatalTables e
  | .ok tbls =>
    match serviceRes with
    | .error e => .fatalService e
    | .ok _ =>
      match docRes with
      | .error e => .fatalDocument e
      | .ok _ => .done (errOf clearRes) (runInserts tbls insertRes 0)

/-! ## Spec-side definitions and list lemmas used to state and settle claims -/

/-- Total rune count of a list of texts, as an `Int` (the spec's cumulative
character count of texts already inserted). -/
def sumLens (ts : List String) : Int :=
  match ts with
  | [] => 0
  | t :: rest => (t.length : Int) + sumLens rest

/-- Follows the spec's words for the insert-text phase: walking texts and
their cells' start offsets in row-major order, each text is placed at its
cell's start offset plus one plus the accumulated length `acc` of the texts
inserted before it. -/
def specInsertTexts (ts : List String) (ss : List Int) (acc : Int) : List docs.Request :=
  match ts, ss with
  | t :: ts2, s :: ss2 =>
    docs.Request.insertText ⟨t, ⟨s + 1 + acc⟩⟩ ::
      specInsertTexts ts2 ss2 (acc + (t.length : Int))
  | _, _ => []

/-- A fetched Docs table with the given cell start offsets, all rows and
cells present (non-nil), as the API returns for a freshly inserted table. -/
def mkDocRows (cellStarts : List (List Int)) : List (Option docs.TableRow) :=
  cellStarts.map (fun rowStarts => some ⟨rowStarts.map (fun st => some ⟨st⟩)⟩)

/-- Decidable table-shape invariant: nonempty and every row has the first
row's cell count (the validation `insertTableToDocument` performs). -/
def validShape (t : table) : Bool :=
  match t.contents with
  | [] => false
  | r0 :: _ => t.contents.all (fun r => r.entries.length == r0.entries.length)

/-- A parse oracle returning a fixed bare html element, for concrete runs. -/
def trivialParse (_s : String) : Except String HtmlNode :=
  .ok (HtmlNode.element ("html") [] [])

/-- A conversion oracle always returning the empty string, for concrete runs. -/
def trivialConv (_s : String) : Except String String := .ok ("")

/-- A document with an empty body, for concrete runs. -/
def emptyDoc : docs.Document := ⟨("doc"), ⟨[]⟩⟩

/-- If dropping `i` elements exposes `x` at the front, then `x` is the `i`-th
element. -/
theorem get_of_drop_cons {α : Type} (l : List α) (i : Nat) (x : α) (r : List α)
    (h : l.drop i = x :: r) : l.get? i = some x := by
  rw [List.get?_eq_getElem?]
  have h2 := List.getElem?_drop l i 0
  rw [h] at h2
  simpa using h2.symm

/-- If dropping `i` elements exposes `x :: r`, dropping one more gives `r`. -/
theorem drop_succ_of_drop_cons {α : Type} (l : List α) (i : Nat) (x : α) (r : List α)
    (h : l.drop i = x :: r) : l.drop (i + 1) = r := by
  have h2 : l.drop (i + 1) = (l.drop i).drop 1 := by rw [List.drop_drop]
  rw [h2, h]
  rfl

/-- The driver's insertion loop records one outcome per table. -/
theorem runInserts_length : ∀ (tbls : List table) (res : Nat → Except String Unit) (n : Nat),
    (runInserts tbls res n).length = tbls.length := by
  intro tbls
  induction tbls with
  | nil => intro res n; rfl
  | cons t rest ih => intro res n; simp [runInserts, ih]

/-- The k-th recorded insertion outcome is the outcome of the (n+k)-th
insertion attempt, present exactly when there is a k-th table. -/
theorem runInserts_get : ∀ (tbls : List table) (res : Nat → Except String Unit) (n k : Nat),
    (runInserts tbls res n).get? k = (tbls.get? k).map (fun _ => errOf (res (n + k))) := by
  intro tbls
  induction tbls with
  | nil => intro res n k; simp [runInserts]
  | cons t rest ih =>
    intro res n k
    cases k with
    | zero => simp [runInserts]
    | succ k2 =>
      simp only [runInserts, List.get?_cons_succ, ih res (n + 1) k2]
      have h3 : n + 1 + k2 = n + (k2 + 1) := by omega
      rw [h3]

/-! ## Claims -/

/-- C9: the cell-markup-stripping function is total and never fails: when the
HTML-to-text conversion returns an error the original string is returned
unchanged (and when it succeeds, the converted text is returned), so
scraping never fails because of a cell conversion error. -/
theorem C9_stripHtmlTags_never_fails : ∀ (s e t : String),
    stripHtmlTags (Except.error e) s = s ∧ stripHtmlTags (Except.ok t) s = t := by
  intro s e t
  exact ⟨rfl, rfl⟩

/-- C10: on the create-new-document path (the document-id file read failed),
`getDocument` returns the newly created document successfully for every
outcome of the id-persistence write — in particular when the write fails. -/
theorem C10_create_ignores_write_error : ∀ (e : String)
    (getRes : String → Except String docs.Document) (doc : docs.Document)
    (writeRes : Except String Unit),
    getDocument (Except.error e) getRes (Except.ok doc) writeRes = Except.ok doc := by
  intro e getRes doc writeRes
  rfl

/-- C3 counterexample: a body with exactly one content segment spanning
offsets 0..1 (so start+1 = 1 exceeds end−1 = 0) still gets a delete-range
request: `clearDocument` issues a batch update containing
deleteContentRange (1, 0), refuting the claimed no-op. -/
theorem C3_counterexample :
    clearDocument ("doc") (Except.ok ⟨("doc"), ⟨[⟨0, 1, none⟩]⟩⟩) (Except.ok ()) =
      ([ApiCall.get ("doc"),
        ApiCall.batchUpdate ("doc") [docs.Request.deleteContentRange ⟨⟨1, 0⟩⟩]],
       Except.ok ()) := by
  rfl

/-- C3 (amended): clearing a document whose body has exactly one content
segment is not a no-op: a delete-range request from start+1 to end−1 is
still issued (only the zero-segment body is a no-op), even when start+1
exceeds end−1. -/
theorem C3_one_segment_issues_delete : ∀ (docId did : String)
    (el : docs.StructuralElement) (b : Except String Unit),
    clearDocument docId (Except.ok ⟨did, ⟨[el]⟩⟩) b =
      ([ApiCall.get docId,
        ApiCall.batchUpdate docId
          [docs.Request.deleteContentRange ⟨⟨el.startIndex + 1, el.endIndex - 1⟩⟩]],
       b) := by
  intro docId did el b
  rfl

/-- C5: on a body with zero content segments the clear operation issues no
mutation (only the Get) and succeeds; on a nonempty body it issues exactly
one delete-range request spanning the first segment's start offset plus one
to the last segment's end offset minus one. -/
theorem C5_clear_shape : ∀ (docId did : String) (b : Except String Unit)
    (el0 : docs.StructuralElement) (rest : List docs.StructuralElement),
    clearDocument docId (Except.ok ⟨did, ⟨[]⟩⟩) b = ([ApiCall.get docId], Except.ok ()) ∧
    clearDocument docId (Except.ok ⟨did, ⟨el0 :: rest⟩⟩) b =
      ([ApiCall.get docId,
        ApiCall.batchUpdate docId
          [docs.Request.deleteContentRange
            ⟨⟨el0.startIndex + 1, (rest.getLast?.getD el0).endIndex - 1⟩⟩]],
       b) := by
  intro docId did b el0 rest
  exact ⟨rfl, rfl⟩

/-- C6: in the driver, a fetch, authenticate, or locate failure halts the
program with the corresponding diagnostic; when all three succeed the
terminal Done state is reached for every outcome of the clear step and of
the insertion attempts, one attempt being recorded per table (the k-th
recorded outcome is the outcome of the k-th insertion), so every remaining
insertion is attempted no matter how many failed. -/
theorem C6_driver_fatal_vs_logged : ∀ (e : String) (tbls : List table)
    (doc : docs.Document) (sRes : Except String Unit)
    (dRes : Except String docs.Document) (cRes : Except String Unit)
    (iRes : Nat → Except String Unit),
    mainDriver (Except.error e) sRes dRes cRes iRes = MainOutcome.fatalTables e ∧
    mainDriver (Except.ok tbls) (Except.error e) dRes cRes iRes = MainOutcome.fatalService e ∧
    mainDriver (Except.ok tbls) (Except.ok ()) (Except.error e) cRes iRes =
      MainOutcome.fatalDocument e ∧
    mainDriver (Except.ok tbls) (Except.ok ()) (Except.ok doc) cRes iRes =
      MainOutcome.done (errOf cRes) (runInserts tbls iRes 0) ∧
    (runInserts tbls iRes 0).length = tbls.length ∧
    (∀ k : Nat, (runInserts tbls iRes 0).get? k =
      (tbls.get? k).map (fun _ => errOf (iRes k))) := by
  intro e tbls doc sRes dRes cRes iRes
  refine ⟨rfl, rfl, rfl, rfl, runInserts_length tbls iRes 0, fun k => ?_⟩
  simpa using runInserts_get tbls iRes 0 k

/-- C4 counterexample: a response with successful status 201 and a parseable
HTML body still makes the fetch fail, because the code accepts exactly
status 200 — refuting the claim that no 2xx response fails on its status. -/
theorem C4_counterexample :
    getTables (Except.ok ⟨201, ("201 Created"), ("page")⟩) trivialParse trivialConv =
      Except.error ("Non-okay status code: 201 201 Created") := by
  rfl

/-- C4 (amended): the table-fetch operation fails exactly when the HTTP
transport fails, the response status code differs from 200 (any other
status, including other 2xx codes, is rejected), or HTML parsing fails. -/
theorem C4_fetch_failure_modes : ∀ (parseF : String → Except String HtmlNode)
    (convF : String → Except String String) (httpRes : Except String HttpResponse),
    (∃ e, getTables httpRes parseF convF = Except.error e) ↔
      ((∃ e, httpRes = Except.error e) ∨
       (∃ resp, httpRes = Except.ok resp ∧ resp.statusCode ≠ 200) ∨
       (∃ resp e, httpRes = Except.ok resp ∧ resp.statusCode = 200 ∧
          parseF resp.body = Except.error e)) := by
  intro parseF convF httpRes
  cases httpRes with
  | error e => simp [getTables]
  | ok resp =>
    by_cases hsc : resp.statusCode = 200
    · cases hp : parseF resp.body with
      | error e => simp [getTables, hsc, hp]
      | ok d => simp [getTables, hsc, hp]
    · simp [getTables, hsc]

/-- C7: for every page whose parsed document has zero elements matching the
confluenceTable class marker, the scraper returns an empty table sequence
and no error. -/
theorem C7_zero_tables_not_error : ∀ (status bd : String)
    (parseF : String → Except String HtmlNode) (convF : String → Except String String)
    (docNode : HtmlNode),
    parseF bd = Except.ok docNode →
    (descendants docNode).filter (hasClass ("confluenceTable")) = [] →
    getTables (Except.ok ⟨200, status, bd⟩) parseF convF = Except.ok [] := by
  intro status bd parseF convF docNode hp hf
  simp [getTables, hp, hf]

/-- C7 witness: a concrete page (bare html element, no tables) yields the
empty table list. -/
theorem C7_witness :
    trivialParse ("page") = Except.ok (HtmlNode.element ("html") [] []) ∧
    (descendants (HtmlNode.element ("html") [] [])).filter (hasClass ("confluenceTable")) = [] ∧
    getTables (Except.ok ⟨200, ("200 OK"), ("page")⟩) trivialParse trivialConv =
      Except.ok [] :=
  ⟨rfl, rfl,
    C7_zero_tables_not_error ("200 OK") ("page") trivialParse trivialConv
      (HtmlNode.element ("html") [] []) rfl rfl⟩

/-- The validation loop accepts exactly the row lists in which every row has
`colCnt` cells. -/
theorem checkRows_none_iff (rows : List row) : ∀ (colCnt i : Nat),
    checkRows rows colCnt i = none ↔ ∀ r ∈ rows, r.entries.length = colCnt := by
  induction rows with
  | nil => intro colCnt i; simp [checkRows]
  | cons r rest ih =>
    intro colCnt i
    simp only [checkRows]
    by_cases h : r.entries.length = colCnt
    · have hcond : ¬ (r.entries.length ≠ colCnt) := by simp [h]
      rw [if_neg hcond, ih colCnt (i + 1)]
      constructor
      · intro hall r2 hr2
        rcases List.mem_cons.mp hr2 with h1 | h2
        · rw [h1, h]
        · exact hall r2 h2
      · intro hall r2 hr2
        exact hall r2 (List.mem_cons_of_mem r hr2)
    · rw [if_pos h]
      constructor
      · intro hsome
        exact (Option.some_ne_none _ hsome).elim
      · intro hall
        exact absurd (hall r (List.mem_cons_self r rest)) h

/-- C2: for every table with zero rows, or with some row whose cell count
differs from the first row's, the insert operation returns a validation
error and issues no API call at all (empty call trace, so in particular no
insert-table request). -/
theorem C2_validation_rejects : ∀ (docId : String) (tbl : table)
    (b1 : Except String Unit) (g : Except String docs.Document) (b2 : Except String Unit),
    validShape tbl = false →
    ∃ msg, insertTableToDocument docId tbl b1 g b2 = ([], some (Except.error msg)) := by
  intro docId tbl b1 g b2 hbad
  obtain ⟨contents⟩ := tbl
  cases contents with
  | nil => exact ⟨("Empty table"), rfl⟩
  | cons r0 rest =>
    have hex : ¬ ∀ r ∈ r0 :: rest, r.entries.length = r0.entries.length := by
      intro hall
      have htrue : validShape ⟨r0 :: rest⟩ = true := by
        simp only [validShape, List.all_eq_true, beq_iff_eq]
        exact hall
      rw [htrue] at hbad
      cases hbad
    have hnone : checkRows (r0 :: rest) r0.entries.length 0 ≠ none := by
      intro hn
      exact hex ((checkRows_none_iff (r0 :: rest) r0.entries.length 0).mp hn)
    obtain ⟨msg, hmsg⟩ := Option.ne_none_iff_exists.mp hnone
    refine ⟨msg, ?_⟩
    simp only [insertTableToDocument]
    rw [← hmsg]

/-- A ragged table: two cells in the first row, one in the second. -/
def tblRagged : table := ⟨[⟨[("a"), ("b")]⟩, ⟨[("c")]⟩]⟩

/-- C2 witness: the concrete ragged table is rejected with a validation
error and an empty call trace. -/
theorem C2_witness :
    validShape tblRagged = false ∧
    ∃ msg, insertTableToDocument ("doc") tblRagged (Except.ok ()) (Except.ok emptyDoc)
      (Except.ok ()) = ([], some (Except.error msg)) :=
  ⟨rfl, C2_validation_rejects ("doc") tblRagged (Except.ok ()) (Except.ok emptyDoc)
    (Except.ok ()) rfl⟩

/-- With no offsets left, the spec-side request list is empty. -/
theorem specInsertTexts_nil_right : ∀ (ts : List String) (acc : Int),
    specInsertTexts ts [] acc = [] := by
  intro ts acc
  cases ts with
  | nil => rfl
  | cons t ts2 => rfl

/-- Splitting the spec-side request list at a row boundary: the second part
starts from the accumulated length of the first part's texts. -/
theorem specInsertTexts_append : ∀ (ts : List String) (ss : List Int)
    (ts2 : List String) (ss2 : List Int) (a : Int),
    ts.length = ss.length →
    specInsertTexts (ts ++ ts2) (ss ++ ss2) a =
      specInsertTexts ts ss a ++ specInsertTexts ts2 ss2 (a + sumLens ts) := by
  intro ts
  induction ts with
  | nil =>
    intro ss ts2 ss2 a hlen
    have hss : ss = [] := List.length_eq_zero.mp (by simpa using hlen.symm)
    subst hss
    have hz : a + sumLens [] = a := by simp [sumLens]
    simp [specInsertTexts, hz]
  | cons t ts3 ih =>
    intro ss ts2 ss2 a hlen
    cases ss with
    | nil => simp at hlen
    | cons s ss3 =>
      simp only [List.cons_append, specInsertTexts, List.append_eq]
      rw [ih ss3 ts2 ss2 (a + (t.length : Int)) (by simpa using hlen)]
      have harith : a + (t.length : Int) + sumLens ts3 = a + sumLens (t :: ts3) := by
        simp only [sumLens]
        omega
      rw [harith]

/-- The cell loop on a fully present row whose cells start at the given
offsets produces exactly the spec-side requests for the row's texts, and
advances the running total by their combined length.  `es` is the remaining
part of the source row's entries, aligned with the remaining offsets. -/
theorem processCells_eq : ∀ (ss : List Int) (es : List String) (contents : List row)
    (rowIdx cellIdx : Nat) (r : row) (t0 : Int),
    contents.get? rowIdx = some r →
    r.entries.drop cellIdx = es →
    es.length = ss.length →
    processCells contents rowIdx (ss.map (fun st => some ⟨st⟩)) cellIdx t0 =
      some (specInsertTexts es ss t0, t0 + sumLens es) := by
  intro ss
  induction ss with
  | nil =>
    intro es contents rowIdx cellIdx r t0 hr hdrop hlen
    have hes : es = [] := List.length_eq_zero.mp (by simpa using hlen)
    subst hes
    have hz : t0 + sumLens [] = t0 := by simp [sumLens]
    simp [processCells, specInsertTexts, hz]
  | cons s ss2 ih =>
    intro es contents rowIdx cellIdx r t0 hr hdrop hlen
    cases es with
    | nil => simp at hlen
    | cons e es2 =>
      have hget : r.entries.get? cellIdx = some e :=
        get_of_drop_cons r.entries cellIdx e es2 hdrop
      have hdrop2 : r.entries.drop (cellIdx + 1) = es2 :=
        drop_succ_of_drop_cons r.entries cellIdx e es2 hdrop
      have hrec := ih es2 contents rowIdx (cellIdx + 1) r (t0 + (e.length : Int)) hr hdrop2
        (by simpa using hlen)
      have hscrut : (contents.get? rowIdx).bind (fun r2 => r2.entries.get? cellIdx) = some e := by
        rw [hr]
        simpa using hget
      simp only [List.map_cons, processCells, hscrut, hrec, specInsertTexts]
      have harith : t0 + (e.length : Int) + sumLens es2 = t0 + sumLens (e :: es2) := by
        simp only [sumLens]
        omega
      rw [harith]

/-- The row loop, starting at `rowIdx` with `post` the not-yet-processed
suffix of the source rows, on a fetched table with all rows and cells
present whose per-row cell start offsets are `starts` (shape-matching
`post`), produces exactly the spec-side requests for the remaining texts in
row-major order. -/
theorem processRows_eq : ∀ (starts : List (List Int)) (contents post : List row)
    (rowIdx : Nat) (t0 : Int),
    contents.drop rowIdx = post →
    post.map (fun r => r.entries.length) = starts.map List.length →
    processRows contents (mkDocRows starts) rowIdx t0 =
      some (specInsertTexts ((post.map (fun r => r.entries)).flatten) starts.flatten t0) := by
  intro starts
  induction starts with
  | nil =>
    intro contents post rowIdx t0 hdrop hshape
    have hpost : post = [] := by
      cases post with
      | nil => rfl
      | cons p ps => simp at hshape
    subst hpost
    simp [mkDocRows, processRows, specInsertTexts_nil_right]
  | cons s0 starts2 ih =>
    intro contents post rowIdx t0 hdrop hshape
    cases post with
    | nil => simp at hshape
    | cons r0 post2 =>
      simp only [List.map_cons, List.cons.injEq] at hshape
      obtain ⟨h1, h2⟩ := hshape
      have hget : contents.get? rowIdx = some r0 :=
        get_of_drop_cons contents rowIdx r0 post2 hdrop
      have hdrop2 : contents.drop (rowIdx + 1) = post2 :=
        drop_succ_of_drop_cons contents rowIdx r0 post2 hdrop
      have hcells := processCells_eq s0 r0.entries contents rowIdx 0 r0 t0 hget
        (by simp) h1
      have hrows := ih contents post2 (rowIdx + 1) (t0 + sumLens r0.entries) hdrop2 h2
      simp only [mkDocRows, List.map_cons] at hcells hrows ⊢
      simp only [processRows, hcells, hrows]
      rw [List.flatten_cons, List.flatten_cons,
        specInsertTexts_append r0.entries s0 ((post2.map (fun r => r.entries)).flatten)
          starts2.flatten t0 h1]

/-- The k-th spec-side request inserts the k-th row-major text at the k-th
cell's start offset plus one plus the base accumulator plus the combined
length of the first k texts. -/
theorem specInsertTexts_get : ∀ (ts : List String) (ss : List Int) (a : Int) (k : Nat),
    ts.length = ss.length →
    (specInsertTexts ts ss a).get? k =
      (ts.get? k).bind (fun t => (ss.get? k).map (fun s =>
        docs.Request.insertText ⟨t, ⟨s + 1 + (a + sumLens (ts.take k))⟩⟩)) := by
  intro ts
  induction ts with
  | nil =>
    intro ss a k hlen
    simp [specInsertTexts]
  | cons t ts2 ih =>
    intro ss a k hlen
    cases ss with
    | nil => simp at hlen
    | cons s ss2 =>
      cases k with
      | zero =>
        simp only [specInsertTexts, List.get?_cons_zero, List.take_zero, sumLens,
          Option.bind, Option.map]
        have : s + 1 + a = s + 1 + (a + 0) := by omega
        rw [← this]
      | succ k2 =>
        have hih := ih ss2 (a + (t.length : Int)) k2 (by simpa using hlen)
        simp only [specInsertTexts, List.get?_cons_succ, hih]
        cases hts : ts2.get? k2 with
        | none => simp
        | some tv =>
          cases hss : ss2.get? k2 with
          | none => simp
          | some sv =>
            simp only [Option.bind, Option.map, List.take_succ_cons]
            have harith : sv + 1 + (a + (t.length : Int) + sumLens (ts2.take k2)) =
                sv + 1 + (a + sumLens (t :: ts2.take k2)) := by
              simp only [sumLens]
              omega
            rw [harith]

/-- C1 (amended): for a validated table whose re-fetched counterpart has all
rows and cells present, the insert operation submits all insert-text
requests as one batched request, in row-major order, and the k-th request
places the k-th row-major text at its cell's start offset plus one plus the
cumulative character count of the texts inserted before it.  (The spec's
particular example rows ["ab","c"] then ["d"] is ragged, hence rejected by
validation with no request at all; in a well-formed variant the text "d" is
shifted by 3 = len "ab" + len "c", not 2.) -/
theorem C1_insert_text_offsets : ∀ (docId did : String) (r0 : row) (rs : List row)
    (cellStarts : List (List Int)) (s e : Int) (b2 : Except String Unit),
    validShape ⟨r0 :: rs⟩ = true →
    (r0 :: rs).map (fun r => r.entries.length) = cellStarts.map List.length →
    (insertTableToDocument docId ⟨r0 :: rs⟩ (Except.ok ())
        (Except.ok ⟨did, ⟨[⟨s, e, some ⟨mkDocRows cellStarts⟩⟩]⟩⟩) b2 =
      ([ApiCall.batchUpdate docId
          [docs.Request.insertTable ⟨((r0 :: rs).length : Int), (r0.entries.length : Int)⟩],
        ApiCall.get docId,
        ApiCall.batchUpdate docId
          (specInsertTexts (((r0 :: rs).map (fun r => r.entries)).flatten)
            cellStarts.flatten 0)],
       some b2)) ∧
    (∀ k : Nat,
      (specInsertTexts (((r0 :: rs).map (fun r => r.entries)).flatten)
          cellStarts.flatten 0).get? k =
        ((((r0 :: rs).map (fun r => r.entries)).flatten).get? k).bind (fun t =>
          (cellStarts.flatten.get? k).map (fun st =>
            docs.Request.insertText
              ⟨t, ⟨st + 1 +
                sumLens ((((r0 :: rs).map (fun r => r.entries)).flatten).take k)⟩⟩))) := by
  intro docId did r0 rs cellStarts s e b2 hvalid hshape
  have hchk : checkRows (r0 :: rs) r0.entries.length 0 = none := by
    apply (checkRows_none_iff (r0 :: rs) r0.entries.length 0).mpr
    simp only [validShape, List.all_eq_true, beq_iff_eq] at hvalid
    exact hvalid
  have hrows := processRows_eq cellStarts (r0 :: rs) (r0 :: rs) 0 0 (by simp) hshape
  have hlenflat : (((r0 :: rs).map (fun r => r.entries)).flatten).length =
      cellStarts.flatten.length := by
    rw [List.length_flatten, List.length_flatten, List.map_map]
    have hcomp : (r0 :: rs).map (List.length ∘ fun r => r.entries) =
        cellStarts.map List.length := by
      simpa [Function.comp] using hshape
    rw [hcomp]
  constructor
  · have hidx : lastTableIdx
        [(⟨s, e, some ⟨mkDocRows cellStarts⟩⟩ : docs.StructuralElement)] = 0 := rfl
    cases b2 with
    | error e2 =>
      simp only [insertTableToDocument, hchk, hidx]
      norm_num
      rw [hrows]
      simp
    | ok u =>
      cases u
      simp only [insertTableToDocument, hchk, hidx]
      norm_num
      rw [hrows]
      simp
  · intro k
    have h := specInsertTexts_get (((r0 :: rs).map (fun r => r.entries)).flatten)
      cellStarts.flatten 0 k hlenflat
    simpa using h

/-- C1 counterexample: at the claim's own example input — rows ["ab","c"]
followed by ["d"] — the table is ragged, so validation rejects it and no
insert-text request is issued at all; in particular the text "d" is not
placed at any offset, refuting the claim as stated. -/
theorem C1_counterexample :
    insertTableToDocument ("doc") ⟨[⟨[("ab"), ("c")]⟩, ⟨[("d")]⟩]⟩ (Except.ok ())
      (Except.ok emptyDoc) (Except.ok ()) =
      ([], some (Except.error ("Invalid table: 2 cells in first row, 1 cell in row #2"))) := by
  rfl

/-- C1 witness: for the well-formed variant rows ["ab","c"], ["d","e"] with
cell start offsets 5, 10, 20, 25, one batched request carries the four
insert-text requests in row-major order at offsets 6 = 5+1+0,
13 = 10+1+2, 24 = 20+1+3 (the text "d" is shifted by exactly 3, the
lengths of "ab" and "c", not 2), and 30 = 25+1+4. -/
theorem C1_witness :
    validShape ⟨[⟨[("ab"), ("c")]⟩, ⟨[("d"), ("e")]⟩]⟩ = true ∧
    insertTableToDocument ("doc") ⟨[⟨[("ab"), ("c")]⟩, ⟨[("d"), ("e")]⟩]⟩ (Except.ok ())
      (Except.ok ⟨("doc"), ⟨[⟨(0 : Int), (30 : Int), some ⟨mkDocRows [[5, 10], [20, 25]]⟩⟩]⟩⟩)
      (Except.ok ()) =
      ([ApiCall.batchUpdate ("doc") [docs.Request.insertTable ⟨2, 2⟩],
        ApiCall.get ("doc"),
        ApiCall.batchUpdate ("doc")
          [docs.Request.insertText ⟨("ab"), ⟨6⟩⟩,
           docs.Request.insertText ⟨("c"), ⟨13⟩⟩,
           docs.Request.insertText ⟨("d"), ⟨24⟩⟩,
           docs.Request.insertText ⟨("e"), ⟨30⟩⟩]],
       some (Except.ok ())) := by
  refine ⟨rfl, ?_⟩
  have h := (C1_insert_text_offsets ("doc") ("doc") ⟨[("ab"), ("c")]⟩ [⟨[("d"), ("e")]⟩]
    [[5, 10], [20, 25]] 0 30 (Except.ok ()) rfl rfl).1
  exact h.trans (by rfl)

/-- Spec-side characterization of the table-search loop: the index of the
last element carrying a table, if any. -/
def findLastTable : List docs.StructuralElement → Option Nat
  | [] => none
  | el :: rest =>
    match findLastTable rest with
    | some j => some (j + 1)
    | none => if el.table.isSome then some 0 else none

/-- The Go search loop computes `findLastTable`, offset by the starting
index, falling back to the accumulator. -/
theorem lastTableIdxAux_eq : ∀ (content : List docs.StructuralElement) (i : Nat) (acc : Int),
    lastTableIdxAux content i acc =
      (match findLastTable content with
       | some j => ((i + j : Nat) : Int)
       | none => acc) := by
  intro content
  induction content with
  | nil => intro i acc; rfl
  | cons el rest ih =>
    intro i acc
    simp only [lastTableIdxAux, findLastTable]
    rw [ih (i + 1)]
    cases hf : findLastTable rest with
    | some j =>
      simp only
      have harith : i + 1 + j = i + (j + 1) := by omega
      rw [harith]
    | none =>
      by_cases ht : el.table.isSome
      · simp [ht]
      · simp [ht]

/-- No element carries a table exactly when the search finds nothing. -/
theorem findLastTable_none_iff : ∀ (l : List docs.StructuralElement),
    findLastTable l = none ↔ ∀ el ∈ l, el.table = none := by
  intro l
  induction l with
  | nil => simp [findLastTable]
  | cons el rest ih =>
    simp only [findLastTable]
    cases hf : findLastTable rest with
    | some j =>
      constructor
      · intro h
        exact (Option.some_ne_none _ h).elim
      · intro hall
        have hnone : findLastTable rest = none :=
          ih.mpr (fun el2 h2 => hall el2 (List.mem_cons_of_mem el h2))
        rw [hf] at hnone
        exact (Option.some_ne_none _ hnone).elim
    | none =>
      by_cases ht : el.table.isSome
      · rw [if_pos ht]
        constructor
        · intro h
          exact (Option.some_ne_none _ h).elim
        · intro hall
          have : el.table = none := hall el (List.mem_cons_self el rest)
          rw [this] at ht
          cases ht
      · rw [if_neg ht]
        constructor
        · intro _ el2 h2
          rcases List.mem_cons.mp h2 with h3 | h3
          · rw [h3]
            exact Option.not_isSome_iff_eq_none.mp ht
          · exact ih.mp hf el2 h3
        · intro _
          rfl

/-- The found index names an element that carries a table, and every later
index does not: it is the last table element. -/
theorem findLastTable_spec : ∀ (l : List docs.StructuralElement) (j : Nat),
    findLastTable l = some j →
    (∃ el, l.get? j = some el ∧ el.table.isSome = true) ∧
    (∀ m : Nat, j < m → ∀ el2, l.get? m = some el2 → el2.table = none) := by
  intro l
  induction l with
  | nil => intro j h; cases h
  | cons el rest ih =>
    intro j h
    simp only [findLastTable] at h
    cases hf : findLastTable rest with
    | some j2 =>
      rw [hf] at h
      injection h with hj
      subst hj
      obtain ⟨⟨el2, hel2, hsome⟩, hafter⟩ := ih j2 hf
      constructor
      · exact ⟨el2, by simpa using hel2, hsome⟩
      · intro m hm el3 hel3
        cases m with
        | zero => exact absurd hm (by omega)
        | succ m2 =>
          have h2 : rest.get? m2 = some el3 := by simpa using hel3
          exact hafter m2 (by omega) el3 h2
    | none =>
      rw [hf] at h
      by_cases ht : el.table.isSome
      · rw [if_pos ht] at h
        injection h with hj
        subst hj
        constructor
        · exact ⟨el, rfl, ht⟩
        · intro m hm el3 hel3
          cases m with
          | zero => exact absurd hm (by omega)
          | succ m2 =>
            have hmem : el3 ∈ rest := List.get?_mem (by simpa using hel3)
            exact (findLastTable_none_iff rest).mp hf el3 hmem
      · rw [if_neg ht] at h
        cases h

/-- C8: for a validated table, the insert operation first issues the
insert-table batch request and then re-fetches the document (the trace
starts with exactly those two calls, whatever follows); if the re-fetched
body contains no table element the operation returns the corresponding
error having issued only those two calls; and the index the search loop
selects is that of the last table element of the body — an element carrying
a table after which no element carries one (a positional assumption, not an
identifier match). -/
theorem C8_refetch_and_last_table : ∀ (docId : String) (r0 : row) (rs : List row)
    (doc : docs.Document) (b2 : Except String Unit),
    validShape ⟨r0 :: rs⟩ = true →
    ((∃ rest res2, insertTableToDocument docId ⟨r0 :: rs⟩ (Except.ok ()) (Except.ok doc) b2 =
        (ApiCall.batchUpdate docId
            [docs.Request.insertTable ⟨((r0 :: rs).length : Int), (r0.entries.length : Int)⟩] ::
          ApiCall.get docId :: rest, res2)) ∧
     ((∀ el ∈ doc.body.content, el.table = none) →
       insertTableToDocument docId ⟨r0 :: rs⟩ (Except.ok ()) (Except.ok doc) b2 =
         ([ApiCall.batchUpdate docId
             [docs.Request.insertTable ⟨((r0 :: rs).length : Int), (r0.entries.length : Int)⟩],
           ApiCall.get docId],
          some (Except.error ("Failed to find last table in doc.Body.Content")))) ∧
     (∀ j : Nat, lastTableIdx doc.body.content = (j : Int) →
       (∃ el, doc.body.content.get? j = some el ∧ el.table.isSome = true) ∧
       (∀ m : Nat, j < m → ∀ el2, doc.body.content.get? m = some el2 → el2.table = none))) := by
  intro docId r0 rs doc b2 hvalid
  have hchk : checkRows (r0 :: rs) r0.entries.length 0 = none := by
    apply (checkRows_none_iff (r0 :: rs) r0.entries.length 0).mpr
    simp only [validShape, List.all_eq_true, beq_iff_eq] at hvalid
    exact hvalid
  refine ⟨?_, ?_, ?_⟩
  · by_cases hidx : lastTableIdx doc.body.content = -1
    · exact ⟨[], some (Except.error ("Failed to find last table in doc.Body.Content")),
        by simp [insertTableToDocument, hchk, hidx]⟩
    · cases hb : (doc.body.content[(lastTableIdx doc.body.content).toNat]?).bind
          (fun el => el.table) with
      | none => exact ⟨[], none, by simp [insertTableToDocument, hchk, hidx, hb]⟩
      | some dt =>
        cases hpr : processRows (r0 :: rs) dt.tableRows 0 0 with
        | none => exact ⟨[], none, by simp [insertTableToDocument, hchk, hidx, hb, hpr]⟩
        | some reqs =>
          cases b2 with
          | error e2 =>
            exact ⟨[ApiCall.batchUpdate docId reqs], some (Except.error e2),
              by simp [insertTableToDocument, hchk, hidx, hb, hpr]⟩
          | ok u =>
            cases u
            exact ⟨[ApiCall.batchUpdate docId reqs], some (Except.ok ()),
              by simp [insertTableToDocument, hchk, hidx, hb, hpr]⟩
  · intro hall
    have hf : findLastTable doc.body.content = none :=
      (findLastTable_none_iff doc.body.content).mpr hall
    have hidx : lastTableIdx doc.body.content = -1 := by
      simp [lastTableIdx, lastTableIdxAux_eq, hf]
    simp [insertTableToDocument, hchk, hidx]
  · intro j hj
    cases hf : findLastTable doc.body.content with
    | none =>
      have heq2 : lastTableIdx doc.body.content = -1 := by
        rw [lastTableIdx, lastTableIdxAux_eq, hf]
      rw [heq2] at hj
      exfalso
      omega
    | some j2 =>
      have heq2 : lastTableIdx doc.body.content = ((0 + j2 : Nat) : Int) := by
        rw [lastTableIdx, lastTableIdxAux_eq, hf]
      rw [heq2] at hj
      have hj2 : j2 = j := by omega
      subst hj2
      exact findLastTable_spec doc.body.content j2 hf

/-- C8 witness: for the valid one-cell table and an empty re-fetched body
(no table element), the trace is exactly the insert-table batch request
followed by the re-fetch, and the operation fails with the
table-not-found error. -/
theorem C8_witness :
    validShape ⟨[⟨[("a")]⟩]⟩ = true ∧
    insertTableToDocument ("doc") ⟨[⟨[("a")]⟩]⟩ (Except.ok ()) (Except.ok emptyDoc)
      (Except.ok ()) =
      ([ApiCall.batchUpdate ("doc") [docs.Request.insertTable ⟨1, 1⟩], ApiCall.get ("doc")],
       some (Except.error ("Failed to find last table in doc.Body.Content"))) :=
  ⟨rfl,
    ((C8_refetch_and_last_table ("doc") ⟨[("a")]⟩ [] emptyDoc (Except.ok ()) rfl).2.1)
      (fun el h => absurd h (List.not_mem_nil el))⟩
